import Mathlib

/-!
# Verification of the `kubelogs` pod resolver and log streamer

Shallow embedding of `command/logs.go` (package `command`): the pod
resolver `cmdGetPods`, the per-pattern accumulation loop of `NewCmdLogs`,
the flag-string and command-string construction, the per-task streaming
model, and the per-channel line reader.

Strings are modelled by Lean `String`; splitting is done on the
character level to mirror Go's `strings.Split` with a one-character
separator.  A compiled Go regular expression is modelled abstractly by
its `MatchString` function `String → Bool`; for literal patterns
(no metacharacters) `MatchString` is unanchored substring search,
modelled exactly by `goMatchLiteral`.
-/

/-- Go `strings.Split(s, sep)` for a one-character separator, on
character lists: splitting the empty text gives `[[]]`, a trailing
separator gives a trailing empty piece. -/
def splitOnChar (sep : Char) : List Char → List (List Char)
  | [] => [[]]
  | c :: cs =>
    if c = sep then [] :: splitOnChar sep cs
    else
      match splitOnChar sep cs with
      | [] => [[c]]
      | h :: t => (c :: h) :: t

/-- Go `strings.Split(s, string(sep))` on `String`s (`sep` one character). -/
def goSplit (s : String) (sep : Char) : List String :=
  (splitOnChar sep s.toList).map (fun l => String.mk l)

/-- Predicate `containsSub pat l`: some contiguous run of `l` equals `pat`. -/
def containsSub (pat : List Char) : List Char → Bool
  | [] => pat.isEmpty
  | c :: cs => List.isPrefixOf pat (c :: cs) || containsSub pat cs

/-- Model of Go `regexp.MatchString` for a literal pattern (one with no
regex metacharacters): unanchored search, i.e. substring containment. -/
def goMatchLiteral (pat s : String) : Bool :=
  containsSub pat.toList s.toList

/-- Type `Container` (logs.go): a container name. -/
structure Container where
  name : String
deriving DecidableEq

/-- Type `Pod` (logs.go): pod name and its containers. -/
structure Pod where
  name : String
  containers : List Container
deriving DecidableEq

/-- Type `Pods` (logs.go): the accumulated pod set. -/
structure Pods where
  items : List Pod
deriving DecidableEq

/-- The fields of one discovery record: `strings.Split(p, " ")`
(logs.go line 194). -/
def recordFields (r : String) : List String :=
  goSplit r ' '

/-- Field `cs[0]` of a record: the pod name field.  `strings.Split` always
returns at least one piece, so `headD ""` is that piece. -/
def firstField (r : String) : String :=
  (recordFields r).headD ""

/-- The container loop of `cmdGetPods` (logs.go lines 203-210): for each
field after the pod name, `continue` when `cName != "" && cName != c`,
otherwise append the container. -/
def filterContainers (cName : String) (cs : List String) : List Container :=
  List.foldl
    (fun acc c => if cName != "" && cName != c then acc else acc ++ [Container.mk c])
    [] cs

/-- Building the `Pod` for one kept record (logs.go lines 199-210):
name is the first field, containers are the filtered remaining fields. -/
def recordToPod (cName : String) (r : String) : Pod :=
  { name := firstField r
    containers := filterContainers cName (recordFields r).tail }

/-- The pure core of `cmdGetPods` (logs.go lines 190-215), after the
discovery output `out` has been captured and the pattern compiled to the
matcher `pr` (its `MatchString`): split `out` on `|`, skip a record when
the pod name does not match, otherwise append the filtered pod. -/
def cmdGetPods (pr : String → Bool) (cName out : String) : Pods :=
  { items :=
      List.foldl
        (fun acc r => if !pr (firstField r) then acc else acc ++ [recordToPod cName r])
        [] (goSplit out '|') }

/-- The two fatal error sources of `cmdGetPods`: failure of the
discovery subprocess (logs.go lines 180-183, the error is returned and
`logrus.Fatalln`-ed by the caller at line 84) and failure of
`regexp.Compile` (logs.go lines 185-188, `logrus.Fatalln`-ed in place). -/
inductive GetPodsError where
  | externalTool
  | patternCompile
deriving DecidableEq

/-- Resolver `cmdGetPods` with its two failure points (logs.go lines 178-216).
`disc` is the outcome of the discovery subprocess (`none` = the
invocation failed, `some out` = it produced `out`); `compiled` is the
outcome of `regexp.Compile` on the pattern (`none` = compile error,
`some pr` = the compiled matcher).  Discovery runs first, exactly as in
the source. -/
def cmdGetPodsE (disc : Option String) (compiled : Option (String → Bool))
    (cName : String) : Except GetPodsError Pods :=
  match disc with
  | none => Except.error GetPodsError.externalTool
  | some out =>
    match compiled with
    | none => Except.error GetPodsError.patternCompile
    | some pr => Except.ok (cmdGetPods pr cName out)

/-- The accumulation loop of `NewCmdLogs.Run` (logs.go lines 80-88): for
each argument call `cmdGetPods` and append its items; any error is fatal
for the whole run.  `compile` maps a pattern to its `regexp.Compile`
outcome; the discovery outcome `disc` is the same for every argument
(same namespace, same query). -/
def resolveArgs (disc : Option String) (compile : String → Option (String → Bool))
    (cName : String) : List String → Except GetPodsError Pods
  | [] => Except.ok { items := [] }
  | a :: rest =>
    match cmdGetPodsE disc (compile a) cName with
    | Except.error e => Except.error e
    | Except.ok p =>
      match resolveArgs disc compile cName rest with
      | Except.error e => Except.error e
      | Except.ok ps => Except.ok { items := p.items ++ ps.items }

/-- One command-line flag as seen by `pflag`'s `VisitAll` (logs.go lines
73-78): its (long) name, its current value rendered as a string, and
whether the caller explicitly set it (`flag.Changed`). -/
structure FlagSpec where
  name : String
  value : String
  changed : Bool
deriving DecidableEq

/-- The skip condition of the `VisitAll` callback (logs.go line 74):
`flag.Name == "help" || flag.Name == "debug" || !flag.Changed`. -/
def skipFlag (f : FlagSpec) : Bool :=
  f.name == "help" || f.name == "debug" || !f.changed

/-- The fragment appended for one visited flag (logs.go line 77):
`fmt.Sprintf(" --%s=%s", flag.Name, flag.Value)`. -/
def flagFragment (f : FlagSpec) : String :=
  " --" ++ f.name ++ "=" ++ f.value

/-- The `fg` string built by the `VisitAll` loop (logs.go lines 72-78),
over the flags in visit order. -/
def buildFg (flags : List FlagSpec) : String :=
  List.foldl (fun acc f => if skipFlag f then acc else acc ++ flagFragment f) "" flags

/-- The log-fetch command string for one pod/container pair (logs.go
lines 95-98): `fmt.Sprintf("kubectl logs %s %s", pod.Name, fg)`, with
` --container <name>` appended exactly when the top-level container
filter `o.Container` is empty. -/
def buildCmdStr (podName fg cName containerName : String) : String :=
  let str := "kubectl logs " ++ podName ++ " " ++ fg
  if cName = "" then str ++ " --container " ++ containerName else str

/-- One streaming task (spec §3 StreamTask): a (pod, container) pair,
the constructed command string, and the line prefix
`[<podName> <containerName>]` (logs.go line 102). -/
structure StreamTask where
  podName : String
  containerName : String
  cmdStr : String
  pfx : String
deriving DecidableEq

/-- The task constructed for one pod/container pair (logs.go lines
95-102). -/
def mkTask (cName fg podName containerName : String) : StreamTask :=
  { podName := podName
    containerName := containerName
    cmdStr := buildCmdStr podName fg cName containerName
    pfx := "[" ++ podName ++ " " ++ containerName ++ "]" }

/-- The nested launch loop of `NewCmdLogs.Run` (logs.go lines 93-157):
one task per pod per container, in discovery order. -/
def streamTasks (cName fg : String) (pods : Pods) : List StreamTask :=
  pods.items.flatMap (fun p => p.containers.map (fun c => mkTask cName fg p.name c.name))

/-- State of the `bufio.Reader.ReadString` loop (logs.go lines
125-147), with `acc` the bytes read so far of the current line: on a
newline the accumulated line (newline included) is emitted with the
prefix and the loop continues on a fresh line; at end of input
`ReadString` returns the leftover bytes together with a non-nil error,
the `if err != nil || io.EOF == err` branch breaks, and nothing is
emitted for them. -/
def readEmitAux (pfx : String) : List Char → List Char → List String
  | _, [] => []
  | acc, c :: cs =>
    if c = '\n' then (pfx ++ String.mk (acc ++ [c])) :: readEmitAux pfx [] cs
    else readEmitAux pfx (acc ++ [c]) cs

/-- The lines emitted by one channel reader goroutine (logs.go lines
125-135 for standard output, 137-147 for standard error) on a channel
that delivers `data` and then ends. -/
def readEmit (pfx : String) (data : List Char) : List String :=
  readEmitAux pfx [] data

/-- The environment of one task: which of its fallible steps succeed
(stdout pipe, stderr pipe, `Start`, `Wait`) and the bytes each output
channel delivers before it ends. -/
structure TaskEnv where
  stdoutPipeOk : Bool
  stderrPipeOk : Bool
  startOk : Bool
  stdoutData : List Char
  stderrData : List Char
  waitOk : Bool

/-- Observable logging events of the run. -/
inductive LogEvent where
  /-- `logrus.Fatalln` on a resolver error (logs.go lines 84, 187). -/
  | fatalLog (e : GetPodsError)
  /-- `logrus.Errorln` on a per-task failure (logs.go lines 111, 116, 121, 150). -/
  | errorLog (t : StreamTask)
  /-- the task's subprocess was started (logs.go line 120 succeeded). -/
  | launched (t : StreamTask)
  /-- a prefixed log line emitted by a channel reader (logs.go lines 133, 145). -/
  | lineOut (s : String)
  /-- the terminal `<prefix>exit` marker (logs.go line 154). -/
  | exitMarker (t : StreamTask)
deriving DecidableEq

/-- The observable event log of one task's goroutine (logs.go lines
105-155).  Pipe acquisition failures and `Start` failure log an error
and return early (no launch); otherwise the subprocess is launched, the
two readers emit their lines (sequentialised here: the real interleaving
of the two channels and of `Wait` is nondeterministic, and no claim
below depends on the order of this list), and `Wait` either logs an
error or is followed by the exit marker. -/
def runTask (t : StreamTask) (env : TaskEnv) : List LogEvent :=
  if !env.stdoutPipeOk then [LogEvent.errorLog t]
  else if !env.stderrPipeOk then [LogEvent.errorLog t]
  else if !env.startOk then [LogEvent.errorLog t]
  else
    LogEvent.launched t ::
      ((readEmit t.pfx env.stdoutData).map LogEvent.lineOut ++
        (readEmit t.pfx env.stderrData).map LogEvent.lineOut) ++
      (if env.waitOk then [LogEvent.exitMarker t] else [LogEvent.errorLog t])

/-- A task fails when any of its fallible steps fails. -/
def taskFails (env : TaskEnv) : Bool :=
  !env.stdoutPipeOk || !env.stderrPipeOk || !env.startOk || !env.waitOk

/-- The events of the launched tasks, the task at position `i` of the
list running under environment `env i`. -/
def runStreamAux (env : Nat → TaskEnv) (i : Nat) : List StreamTask → List LogEvent
  | [] => []
  | t :: ts => runTask t (env i) ++ runStreamAux env (i + 1) ts

/-- The streaming phase (logs.go lines 92-159): all tasks are launched
and the loop returns only after `wg.Wait()`, so the event log at return
time is the full log of every task. -/
def runStream (tasks : List StreamTask) (env : Nat → TaskEnv) : List LogEvent :=
  runStreamAux env 0 tasks

/-- The whole `NewCmdLogs.Run` body plus process exit code (logs.go
lines 67-160 and main.go): resolve all arguments first; a resolver
error is `logrus.Fatalln`, i.e. exit code 1 with nothing launched;
otherwise run the streaming phase and exit 0 (`Run` returns no error,
so `cmd.Execute()` succeeds). -/
def runProcess (disc : Option String) (compile : String → Option (String → Bool))
    (cName : String) (args : List String) (fg : String) (env : Nat → TaskEnv) :
    Nat × List LogEvent :=
  match resolveArgs disc compile cName args with
  | Except.error e => (1, [LogEvent.fatalLog e])
  | Except.ok pods => (0, runStream (streamTasks cName fg pods) env)

/-! ## Interleaving model of one task's goroutines

For the wait-group token claim, the observable events of one
successfully-launched task's three goroutines (logs.go lines 105-155):
the main task goroutine starts the subprocess, spawns the two readers,
calls `command.Wait()` and finally releases its wait-group token (the
`defer wg.Done()` at line 106 runs when the goroutine returns); each
reader goroutine finishes at some point after being spawned.  In the Go
runtime nothing synchronises the readers with the main goroutine:
`command.Wait` waits for the subprocess to exit (and closes the pipes)
but does not join the reader goroutines, so `rdStdoutDone` and
`rdStderrDone` are unordered with respect to `waitReturned` and
`released`. -/

/-- The events of one launched task's goroutines. -/
inductive TEv where
  /-- `command.Start()` returned successfully and the readers were spawned. -/
  | started
  /-- the standard-output reader goroutine finished draining. -/
  | rdStdoutDone
  /-- the standard-error reader goroutine finished draining. -/
  | rdStderrDone
  /-- `command.Wait()` returned: the subprocess has fully exited. -/
  | waitReturned
  /-- the deferred `wg.Done()` ran: the in-flight token was released. -/
  | released
deriving DecidableEq

/-- Program counters of the three goroutines of one task.  `mainPc`:
0 before `Start`, 1 after `Start` (readers spawned), 2 after `Wait`
returned, 3 after `wg.Done`.  Each reader: 0 not yet spawned, 1
running, 2 done. -/
structure TaskState where
  mainPc : Nat
  outPc : Nat
  errPc : Nat
deriving DecidableEq

/-- Initial state: nothing started. -/
def initTaskState : TaskState := { mainPc := 0, outPc := 0, errPc := 0 }

/-- One scheduling step.  The constraints are exactly the program
orders of logs.go lines 105-155: `Start` precedes everything, each
reader runs only once spawned, `Wait` is called by the main goroutine
after spawning the readers, and the deferred `wg.Done` runs after
`Wait` returned (and after the line-154 log).  No transition makes
`waitReturned` or `released` wait for the readers. -/
def stepTask (s : TaskState) : TEv → Option TaskState
  | TEv.started =>
    if s.mainPc = 0 then some { mainPc := 1, outPc := 1, errPc := 1 } else none
  | TEv.rdStdoutDone =>
    if s.outPc = 1 then some { s with outPc := 2 } else none
  | TEv.rdStderrDone =>
    if s.errPc = 1 then some { s with errPc := 2 } else none
  | TEv.waitReturned =>
    if s.mainPc = 1 then some { s with mainPc := 2 } else none
  | TEv.released =>
    if s.mainPc = 2 then some { s with mainPc := 3 } else none

/-- Run a schedule from a state; `none` when some step is not enabled. -/
def runTrace (s : TaskState) : List TEv → Option TaskState
  | [] => some s
  | e :: tr =>
    match stepTask s e with
    | none => none
    | some s' => runTrace s' tr

/-- A schedule the Go runtime may produce for one launched task. -/
def taskTraceOk (tr : List TEv) : Bool :=
  (runTrace initTaskState tr).isSome

/-- Index of the first occurrence of an event in a schedule (length of
the list when absent). -/
def evIdx : List TEv → TEv → Nat
  | [], _ => 0
  | e :: tr, x => if e = x then 0 else evIdx tr x + 1

/-- The token-release property claimed by the spec: in the schedule the
token is released only after both readers have finished draining. -/
def releaseAfterDrain (tr : List TEv) : Prop :=
  evIdx tr TEv.rdStdoutDone < evIdx tr TEv.released ∧
    evIdx tr TEv.rdStderrDone < evIdx tr TEv.released

/-- A schedule the runtime may produce in which the token is released
while both readers are still draining. -/
def earlyReleaseTrace : List TEv :=
  [TEv.started, TEv.waitReturned, TEv.released, TEv.rdStdoutDone, TEv.rdStderrDone]

/-! ## Helper lemmas -/

/-- A fold that skips or appends is a filter-and-map. -/
theorem foldl_skip_append {α β : Type} (skip : α → Bool) (f : α → β) :
    ∀ (l : List α) (acc : List β),
      List.foldl (fun a x => if skip x then a else a ++ [f x]) acc l =
        acc ++ (l.filter (fun x => !skip x)).map f := by
  intro l
  induction l with
  | nil => intro acc; simp
  | cons x xs ih =>
    intro acc
    by_cases hx : skip x = true
    · simp [List.foldl_cons, hx, ih]
    · simp [List.foldl_cons, hx, ih (acc ++ [f x])]

/-- The container loop keeps, in order, exactly the fields that pass
the keep condition. -/
theorem filterContainers_eq (cName : String) (cs : List String) :
    filterContainers cName cs =
      (cs.filter (fun c => !(cName != "" && cName != c))).map Container.mk := by
  have h := foldl_skip_append (fun c => cName != "" && cName != c) Container.mk cs []
  simpa [filterContainers] using h

/-- The record loop keeps, in order, exactly the records whose first
field matches. -/
theorem cmdGetPods_items_eq (pr : String → Bool) (cName out : String) :
    (cmdGetPods pr cName out).items =
      ((goSplit out '|').filter (fun r => pr (firstField r))).map (recordToPod cName) := by
  have h := foldl_skip_append (fun r => !pr (firstField r)) (recordToPod cName)
    (goSplit out '|') []
  simpa [cmdGetPods, Bool.not_not] using h

example : goSplit "a|b|" '|' = ["a", "b", ""] := by decide
example : goSplit "" '|' = [""] := by decide
example : goMatchLiteral "abc" "xabcx" = true := by decide
example :
    cmdGetPods (goMatchLiteral "pod-a") "" "pod-a web sidecar|pod-b web|" =
      { items := [{ name := "pod-a", containers := [⟨"web"⟩, ⟨"sidecar"⟩] }] } := by decide
example :
    cmdGetPods (goMatchLiteral "pod-a") "web" "pod-a web sidecar|pod-b web|" =
      { items := [{ name := "pod-a", containers := [⟨"web"⟩] }] } := by decide

/-! ## Claims -/

/-- C1: for every discovery output and every compiled pattern, the
resolver produces at most as many pods as there are records (the pieces
of the split on `|`), and its pods are exactly the records whose pod
name (first field) matches the pattern, in order; matching is regex
search (substring) semantics, so the literal pattern "abc" matches pod
name "xabcx" and the resolver keeps such a pod. -/
theorem claim_c1_resolver_filter (pr : String → Bool) (cName out : String) :
    (cmdGetPods pr cName out).items.length ≤ (goSplit out '|').length ∧
    (cmdGetPods pr cName out).items =
      ((goSplit out '|').filter (fun r => pr (firstField r))).map (recordToPod cName) ∧
    goMatchLiteral "abc" "xabcx" = true ∧
    (cmdGetPods (goMatchLiteral "abc") "" "xabcx y|").items.map Pod.name = ["xabcx"] := by
  refine ⟨?_, cmdGetPods_items_eq pr cName out, by decide, by decide⟩
  rw [cmdGetPods_items_eq, List.length_map]
  exact List.length_filter_le _ _

/-- C2: on discovery output "pod-a web sidecar|pod-b web|" with pattern
"pod-a", the resolver returns exactly the pod "pod-a" with containers
["web", "sidecar"] in that order when the container filter is empty,
and with containers ["web"] under container filter "web". -/
theorem claim_c2_example :
    cmdGetPods (goMatchLiteral "pod-a") "" "pod-a web sidecar|pod-b web|" =
      { items := [{ name := "pod-a", containers := [⟨"web"⟩, ⟨"sidecar"⟩] }] } ∧
    cmdGetPods (goMatchLiteral "pod-a") "web" "pod-a web sidecar|pod-b web|" =
      { items := [{ name := "pod-a", containers := [⟨"web"⟩] }] } :=
  ⟨by decide, by decide⟩

/-- C3: within a kept record a container is retained iff the container
filter is empty or equals the container name exactly (case-sensitive
string equality); in particular filter "web" does not retain a
container named "Web". -/
theorem claim_c3_container_exact (cName : String) (cs : List String) (c : String) :
    (Container.mk c ∈ filterContainers cName cs ↔
      c ∈ cs ∧ (cName = "" ∨ cName = c)) ∧
    filterContainers "web" ["Web"] = [] := by
  refine ⟨?_, by decide⟩
  rw [filterContainers_eq]
  simp [List.mem_filter, Container.mk.injEq, bne, and_comm]

/-- A run over two patterns accumulates the two resolver results in
argument order. -/
theorem resolveArgs_pair (disc : Option String)
    (compile : String → Option (String → Bool)) (cName out a b : String)
    (pra prb : String → Bool) (hd : disc = some out)
    (ha : compile a = some pra) (hb : compile b = some prb) :
    resolveArgs disc compile cName [a, b] =
      Except.ok { items := (cmdGetPods pra cName out).items ++
        (cmdGetPods prb cName out).items } := by
  subst hd
  simp [resolveArgs, cmdGetPodsE, ha, hb]

/-- The accumulation loop fails exactly when there is at least one
argument and either discovery fails or some argument's pattern fails to
compile. -/
theorem resolveArgs_error_iff (disc : Option String)
    (compile : String → Option (String → Bool)) (cName : String) (args : List String) :
    (∃ e, resolveArgs disc compile cName args = Except.error e) ↔
      args ≠ [] ∧ (disc = none ∨ ∃ a ∈ args, compile a = none) := by
  cases disc with
  | none =>
    cases args with
    | nil => simp [resolveArgs]
    | cons a rest => simp [resolveArgs, cmdGetPodsE]
  | some out =>
    induction args with
    | nil => simp [resolveArgs]
    | cons a rest ih =>
      cases hc : compile a with
      | none =>
        refine iff_of_true ?_ ?_
        · exact ⟨GetPodsError.patternCompile, by simp [resolveArgs, cmdGetPodsE, hc]⟩
        · exact ⟨by simp, Or.inr ⟨a, List.mem_cons_self a rest, hc⟩⟩
      | some pr =>
        cases hr : resolveArgs (some out) compile cName rest with
        | error e =>
          have hrest : ∃ a ∈ rest, compile a = none := by
            have h := ih.mp ⟨e, hr⟩
            rcases h.2 with h2 | h2
            · exact absurd h2 (by simp)
            · exact h2
          refine iff_of_true ?_ ?_
          · exact ⟨e, by simp [resolveArgs, cmdGetPodsE, hc, hr]⟩
          · rcases hrest with ⟨x, hx, hcx⟩
            exact ⟨by simp, Or.inr ⟨x, List.mem_cons_of_mem a hx, hcx⟩⟩
        | ok ps =>
          have hrest : ¬ ∃ a ∈ rest, compile a = none := by
            intro ⟨x, hx, hcx⟩
            have : ∃ e, resolveArgs (some out) compile cName rest = Except.error e :=
              ih.mpr ⟨List.ne_nil_of_mem hx, Or.inr ⟨x, hx, hcx⟩⟩
            rcases this with ⟨e, he⟩
            rw [hr] at he
            exact Except.noConfusion he
          refine iff_of_false ?_ ?_
          · intro ⟨e, he⟩
            simp [resolveArgs, cmdGetPodsE, hc, hr] at he
          · intro ⟨_, h2⟩
            rcases h2 with h2 | ⟨x, hx, hcx⟩
            · exact Option.noConfusion h2
            · rcases List.mem_cons.mp hx with hax | hax
              · rw [hax] at hcx; rw [hcx] at hc; exact Option.noConfusion hc
              · exact hrest ⟨x, hax, hcx⟩

/-- C4: over one discovery output, the pod set accumulated for the
argument list [a, b] is the list concatenation of the result for a
followed by the result for b, with no de-duplication: on output
"pod-a web|" the patterns "pod" and "-a" both match pod-a, which then
appears twice. -/
theorem claim_c4_concat_in_order (disc : Option String)
    (compile : String → Option (String → Bool)) (cName out a b : String)
    (pra prb : String → Bool) (hd : disc = some out)
    (ha : compile a = some pra) (hb : compile b = some prb) :
    resolveArgs disc compile cName [a, b] =
      Except.ok { items := (cmdGetPods pra cName out).items ++
        (cmdGetPods prb cName out).items } ∧
    resolveArgs (some "pod-a web|") (fun p => some (goMatchLiteral p)) "" ["pod", "-a"] =
      Except.ok { items := [{ name := "pod-a", containers := [⟨"web"⟩] },
        { name := "pod-a", containers := [⟨"web"⟩] }] } :=
  ⟨resolveArgs_pair disc compile cName out a b pra prb hd ha hb, by rfl⟩

/-- Witness for C4 at a concrete output and pattern pair. -/
theorem claim_c4_concat_in_order_witness :
    resolveArgs (some "x y|") (fun _ => some (goMatchLiteral "x")) "" ["x", "x"] =
      Except.ok { items := (cmdGetPods (goMatchLiteral "x") "" "x y|").items ++
        (cmdGetPods (goMatchLiteral "x") "" "x y|").items } :=
  (claim_c4_concat_in_order (some "x y|") (fun _ => some (goMatchLiteral "x")) "" "x y|"
    "x" "x" (goMatchLiteral "x") (goMatchLiteral "x") rfl rfl rfl).1

/-- A failing task always logs an error. -/
theorem errorLog_mem_runTask (t : StreamTask) (e : TaskEnv)
    (hf : taskFails e = true) : LogEvent.errorLog t ∈ runTask t e := by
  unfold taskFails at hf
  unfold runTask
  by_cases h1 : e.stdoutPipeOk <;> by_cases h2 : e.stderrPipeOk <;>
    by_cases h3 : e.startOk <;> by_cases h4 : e.waitOk <;>
    simp [h1, h2, h3, h4] at hf ⊢

/-- Every task ends by logging the exit marker or an error. -/
theorem terminal_mem_runTask (t : StreamTask) (e : TaskEnv) :
    LogEvent.exitMarker t ∈ runTask t e ∨ LogEvent.errorLog t ∈ runTask t e := by
  unfold runTask
  by_cases h1 : e.stdoutPipeOk <;> by_cases h2 : e.stderrPipeOk <;>
    by_cases h3 : e.startOk <;> by_cases h4 : e.waitOk <;>
    simp [h1, h2, h3, h4]

/-- An event of the task at position j is in the accumulated stream log. -/
theorem mem_runStreamAux (env : Nat → TaskEnv) (ev : LogEvent) :
    ∀ (ts : List StreamTask) (i j : Nat) (hj : j < ts.length),
      ev ∈ runTask (ts.get ⟨j, hj⟩) (env (i + j)) → ev ∈ runStreamAux env i ts := by
  intro ts
  induction ts with
  | nil => intro i j hj; simp at hj
  | cons t ts ih =>
    intro i j hj hmem
    cases j with
    | zero =>
      simp only [runStreamAux, List.mem_append]
      left
      simpa using hmem
    | succ j' =>
      simp only [runStreamAux, List.mem_append]
      right
      refine ih (i + 1) j' (by simpa using Nat.lt_of_succ_lt_succ hj) ?_
      have harith : i + 1 + j' = i + (j' + 1) := by omega
      rw [harith]
      simpa using hmem

/-- An event of the task at position j is in the stream log. -/
theorem mem_runStream (env : Nat → TaskEnv) (ev : LogEvent) (ts : List StreamTask)
    (j : Nat) (hj : j < ts.length) (hmem : ev ∈ runTask (ts.get ⟨j, hj⟩) (env j)) :
    ev ∈ runStream ts env := by
  refine mem_runStreamAux env ev ts 0 j hj ?_
  simpa using hmem

/-- C5: the process exits non-zero exactly when a fatal condition
occurs: some pod-discovery invocation fails or some pattern fails to
compile (and at least one argument was given, so that resolution runs
at all).  The exit code never depends on the per-task environments, and
whenever resolution succeeds the process exits zero while every failing
task (pipe acquisition, launch, or non-zero subprocess exit) merely
logs an error in the stream log. -/
theorem claim_c5_exit_behavior (disc : Option String)
    (compile : String → Option (String → Bool)) (cName : String)
    (args : List String) (fg : String) (env : Nat → TaskEnv) :
    ((runProcess disc compile cName args fg env).1 ≠ 0 ↔
      args ≠ [] ∧ (disc = none ∨ ∃ a ∈ args, compile a = none)) ∧
    (∀ env' : Nat → TaskEnv,
      (runProcess disc compile cName args fg env).1 =
        (runProcess disc compile cName args fg env').1) ∧
    ∀ pods, resolveArgs disc compile cName args = Except.ok pods →
      (runProcess disc compile cName args fg env).1 = 0 ∧
      ∀ (i : Nat) (hi : i < (streamTasks cName fg pods).length),
        taskFails (env i) = true →
        LogEvent.errorLog ((streamTasks cName fg pods).get ⟨i, hi⟩) ∈
          (runProcess disc compile cName args fg env).2 := by
  have hiff := resolveArgs_error_iff disc compile cName args
  refine ⟨?_, ?_, ?_⟩
  · cases h : resolveArgs disc compile cName args with
    | error e =>
      refine iff_of_true (by simp [runProcess, h]) (hiff.mp ⟨e, h⟩)
    | ok pods =>
      refine iff_of_false (by simp [runProcess, h]) ?_
      intro hr
      rcases hiff.mpr hr with ⟨e, he⟩
      rw [h] at he
      exact Except.noConfusion he
  · intro env'
    cases h : resolveArgs disc compile cName args with
    | error e => simp [runProcess, h]
    | ok pods => simp [runProcess, h]
  · intro pods hok
    refine ⟨by simp [runProcess, hok], ?_⟩
    intro i hi hfail
    have hmem := errorLog_mem_runTask ((streamTasks cName fg pods).get ⟨i, hi⟩) (env i) hfail
    have := mem_runStream env _ (streamTasks cName fg pods) i hi hmem
    simpa [runProcess, hok] using this

/-- Witness for C5: one pod, one container, the subprocess launch
fails; the process still exits zero and the failure is logged. -/
theorem claim_c5_exit_behavior_witness :
    (runProcess (some "p web|") (fun _ => some (goMatchLiteral "p")) "" ["p"] ""
      (fun _ => ⟨true, true, false, [], [], true⟩)).1 = 0 ∧
    LogEvent.errorLog
        ((streamTasks "" "" { items := [{ name := "p", containers := [⟨"web"⟩] }] }).get
          ⟨0, by decide⟩) ∈
      (runProcess (some "p web|") (fun _ => some (goMatchLiteral "p")) "" ["p"] ""
        (fun _ => ⟨true, true, false, [], [], true⟩)).2 := by
  have h := (claim_c5_exit_behavior (some "p web|") (fun _ => some (goMatchLiteral "p"))
    "" ["p"] "" (fun _ => ⟨true, true, false, [], [], true⟩)).2.2
    { items := [{ name := "p", containers := [⟨"web"⟩] }] } (by rfl)
  exact ⟨h.1, h.2 0 (by decide) (by decide)⟩

/-- C6: for a pod set of P pods with C containers each, exactly P * C
streaming tasks are launched, one per pod/container pair in discovery
order, and the stream log present when the run returns contains, for
every launched task, its exit marker or an error. -/
theorem claim_c6_all_tasks_join (cName fg : String) (pods : Pods) (P C : Nat)
    (env : Nat → TaskEnv) (hP : pods.items.length = P)
    (hC : ∀ p ∈ pods.items, p.containers.length = C) :
    (streamTasks cName fg pods).length = P * C ∧
    ∀ t ∈ streamTasks cName fg pods,
      LogEvent.exitMarker t ∈ runStream (streamTasks cName fg pods) env ∨
      LogEvent.errorLog t ∈ runStream (streamTasks cName fg pods) env := by
  constructor
  · have hlen : ∀ l : List Pod, (∀ p ∈ l, p.containers.length = C) →
        (l.flatMap (fun p => p.containers.map
          (fun c => mkTask cName fg p.name c.name))).length = l.length * C := by
      intro l
      induction l with
      | nil => intro _; simp
      | cons p ps ih =>
        intro h
        have hp := h p (List.mem_cons_self p ps)
        have hps := ih (fun q hq => h q (List.mem_cons_of_mem p hq))
        simp only [List.flatMap_cons, List.length_append, List.length_map, hp, hps,
          List.length_cons]
        ring
    rw [streamTasks, hlen pods.items hC, hP]
  · intro t ht
    rcases List.mem_iff_get.mp ht with ⟨⟨j, hj⟩, hget⟩
    rcases terminal_mem_runTask t (env j) with hterm | hterm
    · left
      exact mem_runStream env _ _ j hj (by rw [hget]; exact hterm)
    · right
      exact mem_runStream env _ _ j hj (by rw [hget]; exact hterm)

/-- Witness for C6: two pods with one container each give 2 * 1 tasks,
each of which reaches a terminal log event. -/
theorem claim_c6_all_tasks_join_witness :
    (streamTasks "" "" { items := [{ name := "a", containers := [⟨"x"⟩] },
      { name := "b", containers := [⟨"y"⟩] }] }).length = 2 * 1 ∧
    ∀ t ∈ streamTasks "" "" { items := [{ name := "a", containers := [⟨"x"⟩] },
      { name := "b", containers := [⟨"y"⟩] }] },
      LogEvent.exitMarker t ∈ runStream (streamTasks "" ""
        { items := [{ name := "a", containers := [⟨"x"⟩] },
          { name := "b", containers := [⟨"y"⟩] }] }) (fun _ => ⟨true, true, true, [], [], true⟩) ∨
      LogEvent.errorLog t ∈ runStream (streamTasks "" ""
        { items := [{ name := "a", containers := [⟨"x"⟩] },
          { name := "b", containers := [⟨"y"⟩] }] }) (fun _ => ⟨true, true, true, [], [], true⟩) :=
  claim_c6_all_tasks_join "" "" { items := [{ name := "a", containers := [⟨"x"⟩] },
    { name := "b", containers := [⟨"y"⟩] }] } 2 1 (fun _ => ⟨true, true, true, [], [], true⟩)
    (by decide) (by decide)

/-- C7: if any supplied pattern fails to compile, the run is fatal
(non-zero exit) and the event log contains no subprocess launch at all:
resolution of every argument happens before the first streaming task is
created. -/
theorem claim_c7_fatal_before_launch (disc : Option String)
    (compile : String → Option (String → Bool)) (cName : String)
    (args : List String) (fg : String) (env : Nat → TaskEnv)
    (ha : ∃ a ∈ args, compile a = none) :
    (runProcess disc compile cName args fg env).1 ≠ 0 ∧
    ∀ t, LogEvent.launched t ∉ (runProcess disc compile cName args fg env).2 := by
  have herr : ∃ e, resolveArgs disc compile cName args = Except.error e := by
    rw [resolveArgs_error_iff]
    rcases ha with ⟨a, hmem, hca⟩
    exact ⟨List.ne_nil_of_mem hmem, Or.inr ⟨a, hmem, hca⟩⟩
  rcases herr with ⟨e, he⟩
  constructor
  · simp [runProcess, he]
  · intro t
    simp [runProcess, he]

/-- Witness for C7: the single pattern "(" fails to compile; the run is
fatal and nothing is launched. -/
theorem claim_c7_fatal_before_launch_witness :
    (runProcess (some "p web|") (fun _ => none) "" ["("] ""
      (fun _ => ⟨true, true, true, [], [], true⟩)).1 ≠ 0 ∧
    ∀ t, LogEvent.launched t ∉ (runProcess (some "p web|") (fun _ => none) "" ["("] ""
      (fun _ => ⟨true, true, true, [], [], true⟩)).2 :=
  claim_c7_fatal_before_launch (some "p web|") (fun _ => none) "" ["("] ""
    (fun _ => ⟨true, true, true, [], [], true⟩)
    ⟨"(", List.mem_singleton.mpr rfl, rfl⟩

/-- Folding string concatenation from an accumulator prepends it. -/
theorem foldl_append_str (l : List String) :
    ∀ s : String, List.foldl (fun r t => r ++ t) s l =
      s ++ List.foldl (fun r t => r ++ t) "" l := by
  induction l with
  | nil => intro s; simp [String.append_empty]
  | cons x xs ih =>
    intro s
    rw [List.foldl_cons, List.foldl_cons, ih (s ++ x), ih ("" ++ x),
      String.empty_append, String.append_assoc]

/-- Peeling the head off `String.join`. -/
theorem join_cons_str (x : String) (l : List String) :
    String.join (x :: l) = x ++ String.join l := by
  unfold String.join
  rw [List.foldl_cons, String.empty_append, foldl_append_str]

/-- The flag fold, from any accumulator, appends the concatenation of
the fragments of exactly the kept flags. -/
theorem buildFg_aux (flags : List FlagSpec) :
    ∀ acc : String,
      List.foldl (fun a f => if skipFlag f then a else a ++ flagFragment f) acc flags =
        acc ++ String.join ((flags.filter (fun f => !skipFlag f)).map flagFragment) := by
  induction flags with
  | nil => intro acc; simp [String.join, String.append_empty]
  | cons f fs ih =>
    intro acc
    by_cases h : skipFlag f = true
    · rw [List.foldl_cons, if_pos h, ih]
      rw [List.filter_cons_of_neg (by simp [h])]
    · rw [List.foldl_cons, if_neg h, ih (acc ++ flagFragment f),
        List.filter_cons_of_pos (by simpa using h), List.map_cons, join_cons_str,
        String.append_assoc]

/-- C8: the flag string embeds, in visit order, exactly the flags the
caller explicitly set, each rendered " --name=value" with the long
spelling, omitting unset flags and the help and debug flags; and the
command string carries the per-container " --container <name>" suffix
exactly when the top-level container filter is empty. -/
theorem claim_c8_command_string (flags : List FlagSpec)
    (podName fg cName containerName : String) :
    buildFg flags =
      String.join ((flags.filter (fun f => !skipFlag f)).map flagFragment) ∧
    (cName = "" → buildCmdStr podName fg cName containerName =
      "kubectl logs " ++ podName ++ " " ++ fg ++ " --container " ++ containerName) ∧
    (cName ≠ "" → buildCmdStr podName fg cName containerName =
      "kubectl logs " ++ podName ++ " " ++ fg) := by
  refine ⟨?_, ?_, ?_⟩
  · have h := buildFg_aux flags ""
    rw [buildFg, h, String.empty_append]
  · intro h
    simp [buildCmdStr, h]
  · intro h
    simp [buildCmdStr, h]

/-- Witness for C8: a set flag is kept, an unset flag and the debug
flag are dropped, and both container-filter cases of the command
string. -/
theorem claim_c8_command_string_witness :
    buildFg [⟨"follow", "true", true⟩, ⟨"tail", "3", false⟩, ⟨"debug", "true", true⟩] =
      String.join (([⟨"follow", "true", true⟩, ⟨"tail", "3", false⟩,
        ⟨"debug", "true", true⟩].filter
          (fun f => !skipFlag f)).map flagFragment) ∧
    buildCmdStr "p" " --follow=true" "" "c" =
      "kubectl logs " ++ "p" ++ " " ++ " --follow=true" ++ " --container " ++ "c" ∧
    buildCmdStr "p" " --follow=true" "web" "c" =
      "kubectl logs " ++ "p" ++ " " ++ " --follow=true" :=
  ⟨(claim_c8_command_string [⟨"follow", "true", true⟩, ⟨"tail", "3", false⟩,
      ⟨"debug", "true", true⟩] "p" "" "" "c").1,
   (claim_c8_command_string [] "p" " --follow=true" "" "c").2.1 rfl,
   (claim_c8_command_string [] "p" " --follow=true" "web" "c").2.2 (by decide)⟩

/-- Running a concatenated schedule runs its parts in sequence. -/
theorem runTrace_append (tr1 tr2 : List TEv) :
    ∀ s, runTrace s (tr1 ++ tr2) =
      match runTrace s tr1 with
      | none => none
      | some s' => runTrace s' tr2 := by
  induction tr1 with
  | nil => intro s; simp [runTrace]
  | cons e tr ih =>
    intro s
    cases h : stepTask s e with
    | none => simp [runTrace, h]
    | some s' => simp [runTrace, h, ih]

/-- If a schedule ends in a state whose main goroutine is past `Wait`,
then either `waitReturned` occurred in it or the start state already
was past `Wait`. -/
theorem waitReturned_of_mainPc_ge_two (pre : List TEv) :
    ∀ s s', runTrace s pre = some s' → 2 ≤ s'.mainPc →
      TEv.waitReturned ∈ pre ∨ 2 ≤ s.mainPc := by
  induction pre with
  | nil =>
    intro s s' h h2
    right
    cases h
    exact h2
  | cons e tr ih =>
    intro s s' h h2
    cases he : stepTask s e with
    | none => rw [runTrace, he] at h; exact Option.noConfusion h
    | some s1 =>
      rw [runTrace, he] at h
      rcases ih s1 s' h h2 with hmem | hpc
      · exact Or.inl (List.mem_cons_of_mem e hmem)
      · cases e with
        | started =>
          unfold stepTask at he
          by_cases h0 : s.mainPc = 0
          · rw [if_pos h0] at he
            cases he
            simp at hpc
          · rw [if_neg h0] at he
            exact Option.noConfusion he
        | rdStdoutDone =>
          unfold stepTask at he
          by_cases h0 : s.outPc = 1
          · rw [if_pos h0] at he
            cases he
            exact Or.inr hpc
          · rw [if_neg h0] at he
            exact Option.noConfusion he
        | rdStderrDone =>
          unfold stepTask at he
          by_cases h0 : s.errPc = 1
          · rw [if_pos h0] at he
            cases he
            exact Or.inr hpc
          · rw [if_neg h0] at he
            exact Option.noConfusion he
        | waitReturned => exact Or.inl (List.mem_cons_self _ _)
        | released =>
          unfold stepTask at he
          by_cases h0 : s.mainPc = 2
          · exact Or.inr (by omega)
          · rw [if_neg h0] at he
            exact Option.noConfusion he

/-- C9 counterexample: the runtime may schedule the deferred `wg.Done`
(token release) before either reader goroutine has finished draining
its channel, because `command.Wait` does not join the readers; the
schedule started, waitReturned, released, rdStdoutDone, rdStderrDone is
valid and releases the token before both drains. -/
theorem claim_c9_counterexample :
    taskTraceOk earlyReleaseTrace = true ∧ ¬ releaseAfterDrain earlyReleaseTrace :=
  ⟨by decide, by unfold releaseAfterDrain; decide⟩

/-- C9 (amended): in every valid schedule the token is released only
after `command.Wait` has returned, i.e. after the subprocess has fully
exited; nothing orders the release after the draining of the two output
channels. -/
theorem claim_c9_release_after_exit (tr pre post : List TEv)
    (hok : taskTraceOk tr = true) (hsplit : tr = pre ++ TEv.released :: post) :
    TEv.waitReturned ∈ pre := by
  subst hsplit
  unfold taskTraceOk at hok
  rw [runTrace_append] at hok
  cases hpre : runTrace initTaskState pre with
  | none => rw [hpre] at hok; simp at hok
  | some s =>
    rw [hpre] at hok
    cases hstep : stepTask s TEv.released with
    | none => simp [runTrace, hstep] at hok
    | some s2 =>
      have hs : s.mainPc = 2 := by
        unfold stepTask at hstep
        by_cases h0 : s.mainPc = 2
        · exact h0
        · rw [if_neg h0] at hstep
          exact Option.noConfusion hstep
      rcases waitReturned_of_mainPc_ge_two pre initTaskState s hpre (by omega) with
        hmem | hpc
      · exact hmem
      · exact absurd hpc (by simp [initTaskState])

/-- Witness for C9 (amended) on a concrete full schedule. -/
theorem claim_c9_release_after_exit_witness :
    TEv.waitReturned ∈
      [TEv.started, TEv.rdStdoutDone, TEv.rdStderrDone, TEv.waitReturned] :=
  claim_c9_release_after_exit
    [TEv.started, TEv.rdStdoutDone, TEv.rdStderrDone, TEv.waitReturned, TEv.released]
    [TEv.started, TEv.rdStdoutDone, TEv.rdStderrDone, TEv.waitReturned] []
    (by decide) rfl

/-- Input with no newline left produces no output: the final
`ReadString` returns it together with an error and the loop breaks
without emitting. -/
theorem readEmitAux_no_newline (pfx : String) :
    ∀ (rest acc : List Char), '\n' ∉ rest → readEmitAux pfx acc rest = [] := by
  intro rest
  induction rest with
  | nil => intro acc _; rfl
  | cons c cs ih =>
    intro acc h
    have hc : ¬ c = '\n' := fun hh => h (by rw [hh]; exact List.mem_cons_self _ _)
    rw [readEmitAux, if_neg hc]
    exact ih (acc ++ [c]) (fun hm => h (List.mem_cons_of_mem c hm))

/-- Reading through one newline-terminated chunk emits the accumulated
line (newline included) with the prefix and continues on the rest. -/
theorem readEmitAux_chunk (pfx : String) :
    ∀ (l acc tl : List Char), '\n' ∉ l →
      readEmitAux pfx acc (l ++ '\n' :: tl) =
        (pfx ++ String.mk (acc ++ l ++ ['\n'])) :: readEmitAux pfx [] tl := by
  intro l
  induction l with
  | nil =>
    intro acc tl _
    rw [List.nil_append, readEmitAux, if_pos rfl]
    simp
  | cons c cs ih =>
    intro acc tl h
    have hc : ¬ c = '\n' := fun hh => h (by rw [hh]; exact List.mem_cons_self _ _)
    rw [List.cons_append, readEmitAux, if_neg hc,
      ih (acc ++ [c]) tl (fun hm => h (List.mem_cons_of_mem c hm))]
    simp

/-- C10: on a channel that delivers some newline-terminated chunks
followed by a trailing run with no newline and then ends, the reader
emits, in source order, exactly the newline-terminated lines, each with
the task prefix; the trailing unterminated line is never emitted. -/
theorem claim_c10_reader_lines (pfx : String) (chunks : List (List Char))
    (rest : List Char)
    (hch : ∀ l ∈ chunks, ∃ l', l = l' ++ ['\n'] ∧ '\n' ∉ l')
    (hrest : '\n' ∉ rest) :
    readEmit pfx (chunks.flatten ++ rest) =
      chunks.map (fun l => pfx ++ String.mk l) := by
  unfold readEmit
  induction chunks with
  | nil =>
    rw [List.flatten_nil, List.nil_append, List.map_nil]
    exact readEmitAux_no_newline pfx rest [] hrest
  | cons l ls ih =>
    obtain ⟨l', hl, hnl⟩ := hch l (List.mem_cons_self l ls)
    subst hl
    rw [List.flatten_cons, List.map_cons, List.append_assoc]
    have hshape : (l' ++ ['\n']) ++ (ls.flatten ++ rest) = l' ++ '\n' :: (ls.flatten ++ rest) := by
      simp
    rw [hshape, readEmitAux_chunk pfx l' [] (ls.flatten ++ rest) hnl]
    rw [ih (fun x hx => hch x (List.mem_cons_of_mem _ hx))]
    simp

/-- Witness for C10: the stream "a\nb" yields exactly the line "a\n"
with the prefix; the trailing "b" is dropped. -/
theorem claim_c10_reader_lines_witness :
    readEmit "[p c]" (List.flatten [['a', '\n']] ++ ['b']) =
      [['a', '\n']].map (fun l => "[p c]" ++ String.mk l) :=
  claim_c10_reader_lines "[p c]" [['a', '\n']] ['b']
    (fun l hl => ⟨['a'], by simpa using hl, by decide⟩) (by decide)
